import Mathlib

/-!
Verification development for aqi_scraper.py.

The scraper fetches one HTML page, extracts per-station records with a fixed
set of CSS selectors, stamps them with one shared UTC timestamp, filters out
records with no station name, and (only when the fetch succeeded and at least
one record was retained) overwrites a JSON snapshot and appends rows to a CSV
log.

The embedding below models, from the source:
  - the Python string operations used by the script, on ASCII text
    (replace, title, rstrip, split, strip), over List Char;
  - the HTML node tree and the five fixed CSS selectors of scrape,
    including the document-order first-match semantics of select_one and
    the direct-child selection of the station items;
  - the record construction, filtering and ordering of scrape;
  - the top-level run (fetch outcome, raise_for_status, the two file
    sinks) as a transition on an abstract file-system state.
-/

/-! Python string primitives, modelled on List Char (ASCII semantics). -/

/-- Python s.replace(a, b) for one-character a and b: pointwise substitution. -/
def pyReplaceChar (a b : Char) (l : List Char) : List Char :=
  l.map (fun c => if c = a then b else c)

/-- Python str.title scanning state: the Bool is whether the previous
character was cased (ASCII alphabetic).  A cased character after an uncased
one is uppercased, a cased character after a cased one is lowercased, and
uncased characters pass through and reset the state. -/
def pyTitleAux : Bool → List Char → List Char
  | _, [] => []
  | prev, c :: cs =>
    if c.isAlpha then
      (if prev then c.toLower else c.toUpper) :: pyTitleAux true cs
    else c :: pyTitleAux false cs

/-- Python s.title(). -/
def pyTitle (l : List Char) : List Char :=
  pyTitleAux false l

/-- Core of slug_to_name on character lists: replace hyphens by spaces and
apply title-casing, exactly as slug.replace(chr45, chr32).title(). -/
def slugToNameL (l : List Char) : List Char :=
  pyTitle (pyReplaceChar '-' ' ' l)

/-- slug_to_name from aqi_scraper.py. -/
def slug_to_name (slug : String) : String :=
  String.mk (slugToNameL slug.data)

/-- Python s.split(sep) for a one-character separator: splits at every
occurrence, keeping empty segments, and always returns at least one
segment. -/
def splitOnChar (sep : Char) : List Char → List (List Char)
  | [] => [[]]
  | c :: cs =>
    if c = sep then [] :: splitOnChar sep cs
    else
      match splitOnChar sep cs with
      | [] => [[c]]
      | w :: ws => (c :: w) :: ws

/-- Python s.rstrip(sep) for a one-character argument: removes every
trailing occurrence of sep. -/
def pyRstrip (sep : Char) (l : List Char) : List Char :=
  ((l.reverse).dropWhile (fun c => c = sep)).reverse

/-- Python s.strip() with the common ASCII whitespace characters. -/
def pyStrip (l : List Char) : List Char :=
  (((l.dropWhile Char.isWhitespace).reverse).dropWhile Char.isWhitespace).reverse

/-- Boolean substring test: does pat occur contiguously inside the list?
This is the semantics of the CSS attribute substring operator used for href matching,
and of the Python in operator on strings. -/
def containsSub (pat : List Char) : List Char → Bool
  | [] => pat.isEmpty
  | c :: cs => pat.isPrefixOf (c :: cs) || containsSub pat cs

/-- Join a list of words with single spaces. -/
def joinWords : List (List Char) → List Char
  | [] => []
  | w :: ws => w ++ (ws.map (fun v => ' ' :: v)).flatten

/-- Helper used to relate title-casing of a hyphenated string to
title-casing of its hyphen-separated segments: titles the first word with
the given incoming state and each further word after a space. -/
def joinTitled (b : Bool) : List (List Char) → List Char
  | [] => []
  | w :: ws => pyTitleAux b w ++ (ws.map (fun v => ' ' :: pyTitleAux false v)).flatten

/-- Spec-side reading of the slug normalization: split the slug at hyphens,
title-case each resulting word, join the words with single spaces. -/
def slug_to_name_spec (s : String) : String :=
  String.mk (joinWords ((splitOnChar '-' s.data).map pyTitle))

/-- Spec-side reading of the station-slug extraction: the last non-empty
path segment of the reference (a segment made empty by a trailing separator
is ignored, as is every other empty segment). -/
def lastNonEmptySeg (l : List Char) : List Char :=
  ((splitOnChar '/' l).filter (fun w => !w.isEmpty)).getLastD []

/-! Timestamps.  datetime.now(timezone.utc).strftime takes the clock once
per run; the embedding passes that one reading in as a value. -/

/-- One reading of the UTC clock, already broken into calendar fields. -/
structure DateTime where
  year : Nat
  month : Nat
  day : Nat
  hour : Nat
  minute : Nat
  second : Nat
deriving DecidableEq

/-- Zero-padding to two digits, as the strftime field codes for month, day,
hour, minute and second render. -/
def pad2 (n : Nat) : String :=
  if n < 10 then "0" ++ toString n else toString n

/-- Zero-padding to four digits, as the strftime year field code renders. -/
def pad4 (n : Nat) : String :=
  if n < 10 then "000" ++ toString n
  else if n < 100 then "00" ++ toString n
  else if n < 1000 then "0" ++ toString n
  else toString n

/-- The strftime rendering used by scrape: year-month-day, letter T,
hour-minute-second, letter Z. -/
def fmtTimestamp (t : DateTime) : String :=
  pad4 t.year ++ "-" ++ pad2 t.month ++ "-" ++ pad2 t.day ++ "T" ++
    pad2 t.hour ++ ":" ++ pad2 t.minute ++ ":" ++ pad2 t.second ++ "Z"

/-! The HTML document model and the fixed selectors of scrape. -/

/-- An HTML node: an element with a tag, an attribute list and children, or
a text node. -/
inductive HNode where
  | elem (tag : String) (attrs : List (String × String)) (children : List HNode)
  | text (s : String)

/-- Attribute lookup on an element node. -/
def HNode.getAttr : HNode → String → Option String
  | HNode.elem _ attrs _, k => (attrs.find? (fun p => p.1 = k)).map Prod.snd
  | HNode.text _, _ => none

/-- Does the node have the given element tag? -/
def tagEq (t : String) : HNode → Bool
  | HNode.elem tg _ _ => decide (tg = t)
  | HNode.text _ => false

/-- Does the class attribute, read as a space-separated word list, contain
the given class name? -/
def hasClass (cls : String) (n : HNode) : Bool :=
  match n.getAttr "class" with
  | some v => decide (cls.data ∈ splitOnChar ' ' v.data)
  | none => false

/-- The link selector of scrape: an anchor element whose href attribute is
present and contains the fixed marker ispu-detail. -/
def linkPred (n : HNode) : Bool :=
  tagEq "a" n &&
    (match n.getAttr "href" with
     | some h => containsSub "ispu-detail".data h.data
     | none => false)

/-- The value-box region of an item: a div element with the three fixed
classes position-relative, text-center and padding-20px-lr. -/
def valueBoxPred (n : HNode) : Bool :=
  tagEq "div" n && hasClass "position-relative" n && hasClass "text-center" n &&
    hasClass "padding-20px-lr" n

/-- The AQI value element: an h5 heading. -/
def h5Pred (n : HNode) : Bool :=
  tagEq "h5" n

/-- The pollutant element: a paragraph. -/
def paraPred (n : HNode) : Bool :=
  tagEq "p" n

/-- The status selector: a span element with class text-uppercase. -/
def statusPred (n : HNode) : Bool :=
  tagEq "span" n && hasClass "text-uppercase" n

/-- The station-list container: a ul element with class blog-grid. -/
def gridUlPred (n : HNode) : Bool :=
  tagEq "ul" n && hasClass "blog-grid" n

/-- A station item: a li element with class grid-item. -/
def gridItemPred (n : HNode) : Bool :=
  tagEq "li" n && hasClass "grid-item" n

/-- First-match descendant search in document order, for a descendant
combinator selector: tgt is the target predicate, anc the required-ancestor
predicate, and inside records whether some already-visited ancestor
satisfied anc.  A descendant is returned only when it matches tgt below a
node matching anc. -/
def HNode.findUnder (anc tgt : HNode → Bool) (inside : Bool) : HNode → Option HNode
  | .text _ => none
  | .elem _ _ cs => goList anc tgt inside cs
where goList (anc tgt : HNode → Bool) (inside : Bool) : List HNode → Option HNode
  | [] => none
  | c :: cs =>
    match (if inside && tgt c then some c else none) with
    | some x => some x
    | none =>
      match HNode.findUnder anc tgt (inside || anc c) c with
      | some x => some x
      | none => goList anc tgt inside cs

/-- select_one with a simple selector: the first descendant, in document
order, satisfying the predicate. -/
def HNode.selectOne (p : HNode → Bool) (n : HNode) : Option HNode :=
  HNode.findUnder (fun _ => true) p true n

/-- select_one with a descendant combinator selector: the first descendant,
in document order, satisfying tgt strictly below a node satisfying anc
(the scope node itself may serve as that ancestor). -/
def HNode.selectOneDesc (anc tgt : HNode → Bool) (n : HNode) : Option HNode :=
  HNode.findUnder anc tgt (anc n) n

/-- The station items of the document: every li.grid-item element that is a
direct child of a ul.blog-grid element, in document order.  This is the
top-level select call of scrape. -/
def HNode.selectItems : HNode → List HNode
  | .text _ => []
  | .elem tg at_ cs => goItems (gridUlPred (.elem tg at_ cs)) cs
where goItems (parentMatches : Bool) : List HNode → List HNode
  | [] => []
  | c :: cs =>
    (if parentMatches && gridItemPred c then [c] else []) ++
      HNode.selectItems c ++ goItems parentMatches cs

/-- get_text with stripping: the concatenation of the individually stripped
text fragments of the subtree, in document order. -/
def HNode.textParts : HNode → List Char
  | .text s => pyStrip s.data
  | .elem _ _ cs => goText cs
where goText : List HNode → List Char
  | [] => []
  | c :: cs => HNode.textParts c ++ goText cs

/-- get_text(strip=True) as a String. -/
def HNode.getTextStrip (n : HNode) : String :=
  String.mk n.textParts

/-! The record pipeline of scrape. -/

/-- One StationReading, with the six fields of the record literal, absent
values represented explicitly. -/
structure Record where
  timestamp : String
  station : Option String
  aqi : Option String
  pollutant : Option String
  status : Option String
  detail_url : Option String
deriving DecidableEq

/-- The record as the key-value association the script builds, in the order
of the record literal. -/
def recordDict (r : Record) : List (String × Option String) :=
  [("timestamp", some r.timestamp), ("station", r.station), ("aqi", r.aqi),
   ("pollutant", r.pollutant), ("status", r.status), ("detail_url", r.detail_url)]

/-- The fixed CSV column order of append_csv. -/
def fieldnames : List String :=
  ["timestamp", "station", "aqi", "pollutant", "status", "detail_url"]

/-- Extraction of one station item, following the per-item body of the
scrape loop.  Indexing the found link with the href key is fallible, as in
the source, and surfaces as the error case. -/
def extractItem (ts : String) (li : HNode) : Except String Record :=
  match HNode.selectOne linkPred li with
  | none =>
    Except.ok (Record.mk ts none
      ((HNode.selectOneDesc valueBoxPred h5Pred li).map HNode.getTextStrip)
      ((HNode.selectOneDesc valueBoxPred paraPred li).map HNode.getTextStrip)
      ((HNode.selectOne statusPred li).map HNode.getTextStrip) none)
  | some t =>
    match t.getAttr "href" with
    | none => Except.error "KeyError: href"
    | some h =>
      Except.ok (Record.mk ts
        (some (String.mk (slugToNameL ((splitOnChar '/' (pyRstrip '/' h.data)).getLastD []))))
        ((HNode.selectOneDesc valueBoxPred h5Pred li).map HNode.getTextStrip)
        ((HNode.selectOneDesc valueBoxPred paraPred li).map HNode.getTextStrip)
        ((HNode.selectOne statusPred li).map HNode.getTextStrip) (some h))

/-- The filtering condition of the scrape loop: Python truthiness of the
station value, false for an absent station and for an empty name. -/
def keepRecord (r : Record) : Bool :=
  match r.station with
  | some s => !s.data.isEmpty
  | none => false

/-- The scrape loop over the selected items: builds each record in order
and appends it when its station is truthy; an extraction error aborts the
whole pass. -/
def scrapeItems (ts : String) : List HNode → Except String (List Record)
  | [] => Except.ok []
  | li :: rest =>
    match extractItem ts li with
    | Except.error e => Except.error e
    | Except.ok r =>
      match scrapeItems ts rest with
      | Except.error e => Except.error e
      | Except.ok rs => Except.ok (if keepRecord r then r :: rs else rs)

/-- scrape on an already-fetched, already-parsed document: one shared
timestamp is taken, then the items are processed in document order. -/
def scrape (doc : HNode) (now : DateTime) : Except String (List Record) :=
  scrapeItems (fmtTimestamp now) doc.selectItems

/-! Persistence and the top-level run, on an abstract file-system state. -/

/-- The two output files: the JSON snapshot (modelled by the record list it
serializes) and the CSV log (modelled by its rows, header included); none
means the file does not exist. -/
structure FS where
  json : Option (List Record)
  csv : Option (List (List String))
deriving DecidableEq

/-- save_json: full overwrite of the JSON file with the current records. -/
def save_json (records : List Record) (fs : FS) : FS :=
  FS.mk (some records) fs.csv

/-- One CSV row of a record: the six field values in fieldnames order, an
absent value written as the empty cell, as csv.DictWriter renders None. -/
def recordRow (r : Record) : List String :=
  [r.timestamp, r.station.getD "", r.aqi.getD "", r.pollutant.getD "",
   r.status.getD "", r.detail_url.getD ""]

/-- append_csv: open in append mode, write the header first when the file
did not yet exist, then one row per record. -/
def append_csv (records : List Record) (fs : FS) : FS :=
  FS.mk fs.json
    (some ((match fs.csv with
            | some rows => rows
            | none => [fieldnames]) ++ records.map recordRow))

/-- Abnormal terminations of a run: a transport failure of the GET, a
non-success HTTP status raised by raise_for_status, or a KeyError from
indexing a found link without an href attribute. -/
inductive RunError where
  | networkError
  | fetchError (status : Nat)
  | keyError
deriving DecidableEq

/-- The top-level run.  The fetch outcome is none for a transport failure
and some (status, document) for a response.  raise_for_status aborts on a
4xx or 5xx status before anything else happens; then scrape runs, and the
two sinks are written, JSON first, only when at least one record was
retained.  The returned state is the file system after the run. -/
def runMain (resp : Option (Nat × HNode)) (now : DateTime) (fs : FS) :
    FS × Option RunError :=
  match resp with
  | none => (fs, some RunError.networkError)
  | some (st, doc) =>
    if 400 ≤ st ∧ st < 600 then (fs, some (RunError.fetchError st))
    else
      match scrape doc now with
      | Except.error _ => (fs, some RunError.keyError)
      | Except.ok data =>
        if data.isEmpty then (fs, none)
        else (append_csv data (save_json data fs), none)

/-- A station item bears a valid detail link when the link selector finds a
node whose href yields a non-empty normalized station name. -/
def hasValidLink (li : HNode) : Prop :=
  ∃ t s, HNode.selectOne linkPred li = some t ∧ HNode.getAttr t "href" = some s ∧
    slugToNameL ((splitOnChar '/' (pyRstrip '/' s.data)).getLastD []) ≠ []

/-! Concrete fixtures used to instantiate the theorems below. -/

/-- A detail link for the us-embassy-1 station. -/
def exLink : HNode :=
  HNode.elem "a" [("href", "https://x.id/ispu-detail/us-embassy-1/")] [HNode.text "more"]

/-- A value box holding an AQI heading and a pollutant paragraph. -/
def exValueBox : HNode :=
  HNode.elem "div" [("class", "position-relative text-center padding-20px-lr")]
    [HNode.elem "h5" [] [HNode.text " 42 "], HNode.elem "p" [] [HNode.text "PM 2.5"]]

/-- A value box with the AQI heading missing but the pollutant present. -/
def exValueBoxNoH5 : HNode :=
  HNode.elem "div" [("class", "position-relative text-center padding-20px-lr")]
    [HNode.elem "p" [] [HNode.text "PM 2.5"]]

/-- A status label. -/
def exStatus : HNode :=
  HNode.elem "span" [("class", "text-uppercase")] [HNode.text "Baik"]

/-- A complete station item. -/
def exItem : HNode :=
  HNode.elem "li" [("class", "grid-item")] [exLink, exValueBox, exStatus]

/-- A station item missing only the AQI heading. -/
def exItemNoAqi : HNode :=
  HNode.elem "li" [("class", "grid-item")] [exLink, exValueBoxNoH5, exStatus]

/-- A blank station item with no extractable field at all. -/
def exBareItem : HNode :=
  HNode.elem "li" [("class", "grid-item")] []

/-- A document with one complete station item. -/
def exDoc : HNode :=
  HNode.elem "html" [] [HNode.elem "ul" [("class", "blog-grid")] [exItem]]

/-- A document with no station item at all. -/
def exEmptyDoc : HNode :=
  HNode.elem "html" [] []

/-- A fixed clock reading. -/
def exDT : DateTime :=
  DateTime.mk 2026 1 2 3 4 5

/-- The record scrape produces for exItem under exDT. -/
def exRecord : Record :=
  Record.mk "2026-01-02T03:04:05Z" (some "Us Embassy 1") (some "42") (some "PM 2.5")
    (some "Baik") (some "https://x.id/ispu-detail/us-embassy-1/")

/-! Character-level facts about ASCII case conversion. -/

/-- Char.ofNat is left inverse to toNat on codepoints below the surrogate
range; all ASCII arithmetic below stays in that range. -/
theorem toNat_ofNat_valid {n : Nat} (h : n < 55296) : (Char.ofNat n).toNat = n := by
  have hv : n.isValidChar := Or.inl h
  rw [Char.ofNat, dif_pos hv]
  simp [Char.ofNatAux, Char.toNat, UInt32.toNat]

theorem isLower_iff (c : Char) : c.isLower = true ↔ 97 ≤ c.toNat ∧ c.toNat ≤ 122 := by
  simp [Char.isLower, UInt32.le_def, BitVec.le_def, Char.toNat, UInt32.toNat]

theorem isUpper_iff (c : Char) : c.isUpper = true ↔ 65 ≤ c.toNat ∧ c.toNat ≤ 90 := by
  simp [Char.isUpper, UInt32.le_def, BitVec.le_def, Char.toNat, UInt32.toNat]

theorem isAlpha_iff (c : Char) : c.isAlpha = true ↔
    (65 ≤ c.toNat ∧ c.toNat ≤ 90) ∨ (97 ≤ c.toNat ∧ c.toNat ≤ 122) := by
  rw [Char.isAlpha, Bool.or_eq_true, isUpper_iff, isLower_iff]

theorem isAlpha_toUpper (c : Char) : c.toUpper.isAlpha = c.isAlpha := by
  unfold Char.toUpper
  by_cases h : c.toNat ≥ 97 ∧ c.toNat ≤ 122
  · rw [if_pos h]
    have h1 : (Char.ofNat (c.toNat - 32)).toNat = c.toNat - 32 := toNat_ofNat_valid (by omega)
    have ha : c.isAlpha = true := (isAlpha_iff c).mpr (Or.inr h)
    have hb : (Char.ofNat (c.toNat - 32)).isAlpha = true := by
      rw [isAlpha_iff, h1]; omega
    rw [ha, hb]
  · rw [if_neg h]

theorem isAlpha_toLower (c : Char) : c.toLower.isAlpha = c.isAlpha := by
  unfold Char.toLower
  by_cases h : c.toNat ≥ 65 ∧ c.toNat ≤ 90
  · rw [if_pos h]
    have h1 : (Char.ofNat (c.toNat + 32)).toNat = c.toNat + 32 := toNat_ofNat_valid (by omega)
    have ha : c.isAlpha = true := (isAlpha_iff c).mpr (Or.inl h)
    have hb : (Char.ofNat (c.toNat + 32)).isAlpha = true := by
      rw [isAlpha_iff, h1]; omega
    rw [ha, hb]
  · rw [if_neg h]

theorem toUpper_idem (c : Char) : c.toUpper.toUpper = c.toUpper := by
  unfold Char.toUpper
  by_cases h : c.toNat ≥ 97 ∧ c.toNat ≤ 122
  · rw [if_pos h]
    have h1 : (Char.ofNat (c.toNat - 32)).toNat = c.toNat - 32 := toNat_ofNat_valid (by omega)
    rw [if_neg (by omega)]
  · rw [if_neg h, if_neg h]

theorem toLower_idem (c : Char) : c.toLower.toLower = c.toLower := by
  unfold Char.toLower
  by_cases h : c.toNat ≥ 65 ∧ c.toNat ≤ 90
  · rw [if_pos h]
    have h1 : (Char.ofNat (c.toNat + 32)).toNat = c.toNat + 32 := toNat_ofNat_valid (by omega)
    rw [if_neg (by omega)]
  · rw [if_neg h, if_neg h]

/-! Facts about title-casing. -/

/-- Title-casing is idempotent, whatever the incoming scanner state. -/
theorem pyTitleAux_idem (l : List Char) : ∀ b, pyTitleAux b (pyTitleAux b l) = pyTitleAux b l := by
  induction l with
  | nil => intro b; rfl
  | cons c cs ih =>
    intro b
    by_cases hc : c.isAlpha = true <;> cases b <;>
      simp [pyTitleAux, hc, isAlpha_toUpper, isAlpha_toLower, toUpper_idem, toLower_idem, ih]

/-- The split of any list is non-empty. -/
theorem splitOnChar_ne_nil (sep : Char) (l : List Char) : splitOnChar sep l ≠ [] := by
  cases l with
  | nil => simp [splitOnChar]
  | cons c cs =>
    by_cases h : c = sep
    · simp [splitOnChar, h]
    · simp only [splitOnChar, h, if_false]
      cases hs : splitOnChar sep cs <;> simp

/-- Replacing hyphens by spaces and then title-casing is title-casing each
hyphen-separated segment and joining with spaces, whatever the incoming
scanner state: the separator and the space are both uncased, so the state
at every boundary agrees. -/
theorem titleAux_replace (l : List Char) :
    ∀ b, pyTitleAux b (pyReplaceChar '-' ' ' l) = joinTitled b (splitOnChar '-' l) := by
  induction l with
  | nil => intro b; rfl
  | cons c cs ih =>
    intro b
    obtain ⟨w, ws, hs⟩ := List.exists_cons_of_ne_nil (splitOnChar_ne_nil '-' cs)
    by_cases h : c = '-'
    · subst h
      have hrep : pyReplaceChar '-' ' ' ('-' :: cs) = ' ' :: pyReplaceChar '-' ' ' cs := by
        simp [pyReplaceChar]
      rw [hrep]
      have hsp : splitOnChar '-' ('-' :: cs) = [] :: splitOnChar '-' cs := by
        simp [splitOnChar]
      rw [hsp, hs]
      have : pyTitleAux b (' ' :: pyReplaceChar '-' ' ' cs) =
          ' ' :: pyTitleAux false (pyReplaceChar '-' ' ' cs) := by
        simp [pyTitleAux]
      rw [this, ih false, hs]
      simp [joinTitled, pyTitleAux]
    · have hrep : pyReplaceChar '-' ' ' (c :: cs) = c :: pyReplaceChar '-' ' ' cs := by
        simp [pyReplaceChar, h]
      have hsp : splitOnChar '-' (c :: cs) = (c :: w) :: ws := by
        simp only [splitOnChar, h, if_false, hs]
      rw [hrep, hsp]
      by_cases ha : c.isAlpha = true
      · simp only [pyTitleAux, ha, if_true, joinTitled, ih true, hs, List.cons_append]
        try simp [joinTitled]
      · simp only [pyTitleAux, ha, if_false, joinTitled, ih false, hs, List.cons_append]
        try simp [joinTitled]

/-- With no incoming cased state, the segment-wise titling joins into the
spec-side split-title-join form. -/
theorem joinTitled_eq_joinWords (ws : List (List Char)) :
    joinTitled false ws = joinWords (ws.map pyTitle) := by
  cases ws with
  | nil => rfl
  | cons w rest => simp only [joinTitled, joinWords, List.map_cons, List.map_map]; rfl

/-- C1: for every slug string containing a hyphen, slug_to_name replaces
every hyphen with a space and title-cases each resulting word, i.e. it
agrees with the split-at-hyphens, title-each-word, join-with-spaces
reading; in particular it sends us-embassy-1 to Us Embassy 1. -/
theorem C1_slug_to_name_hyphens_titlecase :
    (∀ s : String, '-' ∈ s.data → slug_to_name s = slug_to_name_spec s) ∧
      slug_to_name "us-embassy-1" = "Us Embassy 1" := by
  refine ⟨fun s _ => ?_, by decide⟩
  show String.mk (slugToNameL s.data) =
    String.mk (joinWords ((splitOnChar '-' s.data).map pyTitle))
  have h1 : slugToNameL s.data = joinTitled false (splitOnChar '-' s.data) :=
    titleAux_replace s.data false
  rw [h1, joinTitled_eq_joinWords]

/-- C1 witness: the hypothesis holds and the theorem applies at the
concrete slug us-embassy-1. -/
theorem C1_witness :
    slug_to_name "us-embassy-1" = slug_to_name_spec "us-embassy-1" :=
  C1_slug_to_name_hyphens_titlecase.1 "us-embassy-1" (by decide)

/-- C9: on any output of slug_to_name containing no hyphen, slug_to_name
acts as the identity, so the function is idempotent there. -/
theorem C9_slug_to_name_idempotent (s : String)
    (h : ∀ c ∈ (slug_to_name s).data, c ≠ '-') :
    slug_to_name (slug_to_name s) = slug_to_name s := by
  show String.mk (slugToNameL (slugToNameL s.data)) = String.mk (slugToNameL s.data)
  congr 1
  have h2 : ∀ c ∈ slugToNameL s.data, (fun c => if c = '-' then ' ' else c) c = id c := by
    intro c hc
    have hne : c ≠ '-' := h c hc
    simp [hne]
  have hrep : pyReplaceChar '-' ' ' (slugToNameL s.data) = slugToNameL s.data :=
    (List.map_congr_left h2).trans (List.map_id _)
  show slugToNameL (slugToNameL s.data) = slugToNameL s.data
  unfold slugToNameL pyTitle
  rw [show pyReplaceChar '-' ' ' (pyTitleAux false (pyReplaceChar '-' ' ' s.data)) =
      pyTitleAux false (pyReplaceChar '-' ' ' s.data) from hrep]
  exact pyTitleAux_idem _ false

/-- C9 witness: the theorem applies at the concrete slug us-embassy-1,
whose image contains no hyphen. -/
theorem C9_witness :
    slug_to_name (slug_to_name "us-embassy-1") = slug_to_name "us-embassy-1" :=
  C9_slug_to_name_idempotent "us-embassy-1" (by decide)

/-! Facts about splitting and right-stripping, leading to the equivalence
between the last segment after stripping trailing separators and the last
non-empty segment. -/

theorem pyRstrip_append_sep (sep : Char) (l : List Char) :
    pyRstrip sep (l ++ [sep]) = pyRstrip sep l := by
  simp [pyRstrip, List.dropWhile_cons]

theorem pyRstrip_append_ne (sep c : Char) (l : List Char) (h : c ≠ sep) :
    pyRstrip sep (l ++ [c]) = l ++ [c] := by
  simp [pyRstrip, List.dropWhile_cons, h]

theorem splitOnChar_cons_sep (sep : Char) (cs : List Char) :
    splitOnChar sep (sep :: cs) = [] :: splitOnChar sep cs := by
  show (if sep = sep then [] :: splitOnChar sep cs else _) = _
  rw [if_pos rfl]

theorem splitOnChar_cons_ne (sep c : Char) (cs : List Char) (h : c ≠ sep)
    (w : List Char) (ws : List (List Char)) (hs : splitOnChar sep cs = w :: ws) :
    splitOnChar sep (c :: cs) = (c :: w) :: ws := by
  simp only [splitOnChar]
  rw [if_neg h, hs]

theorem split_append_sep (sep : Char) (l : List Char) :
    splitOnChar sep (l ++ [sep]) = splitOnChar sep l ++ [[]] := by
  induction l with
  | nil =>
    show splitOnChar sep [sep] = [[]] ++ [[]]
    rw [splitOnChar_cons_sep]
    rfl
  | cons c cs ih =>
    by_cases h : c = sep
    · rw [h]
      show splitOnChar sep (sep :: (cs ++ [sep])) = splitOnChar sep (sep :: cs) ++ [[]]
      rw [splitOnChar_cons_sep, ih, splitOnChar_cons_sep]
      rfl
    · obtain ⟨w, ws, hs⟩ := List.exists_cons_of_ne_nil (splitOnChar_ne_nil sep cs)
      show splitOnChar sep (c :: (cs ++ [sep])) = splitOnChar sep (c :: cs) ++ [[]]
      rw [splitOnChar_cons_ne sep c (cs ++ [sep]) h w (ws ++ [[]]) (by rw [ih, hs]; rfl),
          splitOnChar_cons_ne sep c cs h w ws hs]
      rfl

theorem split_append_ne (sep c : Char) (l : List Char) (h : c ≠ sep) :
    ∃ xs y, splitOnChar sep (l ++ [c]) = xs ++ [y] ∧ y ≠ [] := by
  induction l with
  | nil =>
    refine ⟨[], [c], ?_, by simp⟩
    show splitOnChar sep [c] = [] ++ [[c]]
    rw [splitOnChar_cons_ne sep c [] h [] [] rfl]
    rfl
  | cons a l2 ih =>
    obtain ⟨xs, y, hxy, hy⟩ := ih
    by_cases ha : a = sep
    · rw [ha]
      refine ⟨[] :: xs, y, ?_, hy⟩
      show splitOnChar sep (sep :: (l2 ++ [c])) = ([] :: xs) ++ [y]
      rw [splitOnChar_cons_sep, hxy]
      rfl
    · cases xs with
      | nil =>
        refine ⟨[], a :: y, ?_, by simp⟩
        show splitOnChar sep (a :: (l2 ++ [c])) = [] ++ [a :: y]
        rw [splitOnChar_cons_ne sep a (l2 ++ [c]) ha y [] hxy]
        rfl
      | cons x xs2 =>
        refine ⟨(a :: x) :: xs2, y, ?_, hy⟩
        show splitOnChar sep (a :: (l2 ++ [c])) = ((a :: x) :: xs2) ++ [y]
        rw [splitOnChar_cons_ne sep a (l2 ++ [c]) ha x (xs2 ++ [y]) hxy]
        rfl

/-- The last segment of the split of the right-stripped reference equals
the last non-empty segment of the split of the reference itself: the two
readings of slug extraction agree on every input. -/
theorem lastSeg_eq_lastNonEmpty (sep : Char) (l : List Char) :
    (splitOnChar sep (pyRstrip sep l)).getLastD [] =
      ((splitOnChar sep l).filter (fun w => !w.isEmpty)).getLastD [] := by
  induction l using List.reverseRecOn with
  | nil => rfl
  | append_singleton l2 c ih =>
    by_cases h : c = sep
    · subst h
      rw [pyRstrip_append_sep, split_append_sep]
      simpa [List.filter_append] using ih
    · rw [pyRstrip_append_ne sep c l2 h]
      obtain ⟨xs, y, hxy, hy⟩ := split_append_ne sep c l2 h
      rw [hxy]
      have hyne : (!y.isEmpty) = true := by
        simp [List.isEmpty_iff, hy]
      simp [List.filter_append, hyne, List.getLastD_concat]

/-! Facts about the selector search. -/

/-- Whatever findUnder returns satisfies the target predicate. -/
theorem findUnder_tgt (anc tgt : HNode → Bool) :
    ∀ ins n, ∀ t, HNode.findUnder anc tgt ins n = some t → tgt t = true := by
  intro ins n
  refine HNode.findUnder.induct anc tgt
    (fun ins l => ∀ t, HNode.findUnder.goList anc tgt ins l = some t → tgt t = true)
    (fun ins n => ∀ t, HNode.findUnder anc tgt ins n = some t → tgt t = true)
    ?_ ?_ ?_ ?_ ?_ ?_ ins n
  · intro ins s t h
    simp [HNode.findUnder] at h
  · intro ins tag attrs cs ih t h
    simp only [HNode.findUnder] at h
    exact ih t h
  · intro ins t h
    simp [HNode.findUnder.goList] at h
  · intro ins c cs x hif t h
    have hb : (ins && tgt c) = true ∧ c = x := by
      by_cases hb2 : (ins && tgt c) = true
      · rw [if_pos hb2] at hif
        exact ⟨hb2, Option.some.inj hif⟩
      · rw [if_neg hb2] at hif
        exact absurd hif (by simp)
    simp only [HNode.findUnder.goList, hif] at h
    have ht : x = t := Option.some.inj h
    have := hb.1
    rw [Bool.and_eq_true] at this
    rw [← ht, ← hb.2]
    exact this.2
  · intro ins c cs hif x hfu ih2 t h
    simp only [HNode.findUnder.goList, hif, hfu] at h
    have ht : x = t := Option.some.inj h
    rw [← ht]
    exact ih2 x hfu
  · intro ins c cs hif hfu ih2 ih1 t h
    simp only [HNode.findUnder.goList, hif, hfu] at h
    exact ih1 t h

/-- Whatever selectOne returns satisfies its predicate. -/
theorem selectOne_tgt {p : HNode → Bool} {n t : HNode}
    (h : HNode.selectOne p n = some t) : p t = true :=
  findUnder_tgt (fun _ => true) p true n t h

/-- A node matching the link selector is an anchor with an href attribute
containing the marker. -/
theorem linkPred_href {t : HNode} (h : linkPred t = true) :
    ∃ s, HNode.getAttr t "href" = some s ∧
      containsSub "ispu-detail".data s.data = true := by
  unfold linkPred at h
  rw [Bool.and_eq_true] at h
  cases ha : HNode.getAttr t "href" with
  | none => rw [ha] at h; exact absurd h.2 (by simp)
  | some s =>
    rw [ha] at h
    exact ⟨s, rfl, h.2⟩

/-! Facts about item extraction and the scrape loop. -/

/-- Extraction never fails: the error branch guarding the href lookup is
unreachable because the link selector only matches nodes carrying an href
attribute. -/
theorem extractItem_ok (ts : String) (li : HNode) :
    ∃ r, extractItem ts li = Except.ok r := by
  cases hl : HNode.selectOne linkPred li with
  | none => exact ⟨_, by simp only [extractItem, hl]; rfl⟩
  | some t =>
    obtain ⟨s, hs, _⟩ := linkPred_href (selectOne_tgt hl)
    exact ⟨_, by simp only [extractItem, hl, hs]; rfl⟩

/-- Every successfully extracted record carries the timestamp it was
given. -/
theorem extractItem_timestamp {ts : String} {li : HNode} {r : Record}
    (h : extractItem ts li = Except.ok r) : r.timestamp = ts := by
  cases hl : HNode.selectOne linkPred li with
  | none =>
    simp only [extractItem, hl] at h
    have h2 := Except.ok.inj h
    rw [← h2]
  | some t =>
    cases hs : HNode.getAttr t "href" with
    | none => simp [extractItem, hl, hs] at h
    | some s =>
      simp only [extractItem, hl, hs] at h
      have h2 := Except.ok.inj h
      rw [← h2]

/-- Explicit value of extraction when a link was found with an href. -/
theorem extractItem_link {ts : String} {li t : HNode} {s : String}
    (hl : HNode.selectOne linkPred li = some t)
    (hh : HNode.getAttr t "href" = some s) :
    extractItem ts li = Except.ok (Record.mk ts
      (some (String.mk (slugToNameL ((splitOnChar '/' (pyRstrip '/' s.data)).getLastD []))))
      ((HNode.selectOneDesc valueBoxPred h5Pred li).map HNode.getTextStrip)
      ((HNode.selectOneDesc valueBoxPred paraPred li).map HNode.getTextStrip)
      ((HNode.selectOne statusPred li).map HNode.getTextStrip) (some s)) := by
  simp only [extractItem, hl, hh]

/-- Explicit value of extraction when no link was found. -/
theorem extractItem_nolink {ts : String} {li : HNode}
    (hl : HNode.selectOne linkPred li = none) :
    extractItem ts li = Except.ok (Record.mk ts none
      ((HNode.selectOneDesc valueBoxPred h5Pred li).map HNode.getTextStrip)
      ((HNode.selectOneDesc valueBoxPred paraPred li).map HNode.getTextStrip)
      ((HNode.selectOne statusPred li).map HNode.getTextStrip) none) := by
  simp only [extractItem, hl]

/-- Every record of a successful scrape pass was retained by the station
filter and carries the shared timestamp. -/
theorem scrapeItems_mem {ts : String} :
    ∀ {l : List HNode} {rs : List Record}, scrapeItems ts l = Except.ok rs →
      ∀ {r : Record}, r ∈ rs → keepRecord r = true ∧ r.timestamp = ts := by
  intro l
  induction l with
  | nil =>
    intro rs h r hr
    simp only [scrapeItems] at h
    rw [← Except.ok.inj h] at hr
    simp at hr
  | cons li rest ih =>
    intro rs h r hr
    cases he : extractItem ts li with
    | error e => simp [scrapeItems, he] at h
    | ok r0 =>
      cases hrest : scrapeItems ts rest with
      | error e => simp [scrapeItems, he, hrest] at h
      | ok rs0 =>
        simp only [scrapeItems, he, hrest] at h
        have h2 := Except.ok.inj h
        by_cases hk : keepRecord r0 = true
        · rw [if_pos hk] at h2
          rw [← h2] at hr
          rcases List.mem_cons.mp hr with h3 | h3
          · rw [h3]
            exact ⟨hk, extractItem_timestamp he⟩
          · exact ih hrest h3
        · rw [if_neg hk] at h2
          rw [← h2] at hr
          exact ih hrest hr

/-- C10: whenever the link lookup returns a node, that node carries an
href attribute (the selector only matches anchors with one), so the
href-indexing error branch of extraction is unreachable and extraction
always succeeds. -/
theorem C10_href_present (li t : HNode)
    (h : HNode.selectOne linkPred li = some t) :
    (∃ s, HNode.getAttr t "href" = some s) ∧
      ∀ ts, ∃ r, extractItem ts li = Except.ok r := by
  obtain ⟨s, hs, _⟩ := linkPred_href (selectOne_tgt h)
  exact ⟨⟨s, hs⟩, fun ts => extractItem_ok ts li⟩

/-- C10 witness: the theorem applies at the concrete complete item. -/
theorem C10_witness :
    (∃ s, HNode.getAttr exLink "href" = some s) ∧
      ∀ ts, ∃ r, extractItem ts exItem = Except.ok r :=
  C10_href_present exItem exLink rfl

/-- C7: every record of one scrape run carries the one timestamp rendered
from the single clock reading taken at the start of the run. -/
theorem C7_shared_timestamp (doc : HNode) (now : DateTime) (rs : List Record)
    (h : scrape doc now = Except.ok rs) :
    ∀ r ∈ rs, r.timestamp = fmtTimestamp now :=
  fun _ hr => (scrapeItems_mem h hr).2

/-- C7 witness: the theorem applies at the one-item document and a fixed
clock reading. -/
theorem C7_witness : exRecord.timestamp = fmtTimestamp exDT :=
  C7_shared_timestamp exDoc exDT [exRecord] rfl exRecord (by simp)

/-- C6: every record of a scrape run has a non-empty station, and its
key set is exactly the six fixed keys in order, absence being an explicit
none value. -/
theorem C6_record_invariants (doc : HNode) (now : DateTime) (rs : List Record)
    (h : scrape doc now = Except.ok rs) :
    ∀ r ∈ rs, (∃ s, r.station = some s ∧ s ≠ "") ∧
      (recordDict r).map Prod.fst = fieldnames := by
  intro r hr
  have hk := (scrapeItems_mem h hr).1
  refine ⟨?_, rfl⟩
  unfold keepRecord at hk
  cases hst : r.station with
  | none => rw [hst] at hk; simp at hk
  | some s =>
    rw [hst] at hk
    refine ⟨s, rfl, ?_⟩
    intro hemp
    rw [hemp] at hk
    simp at hk

/-- C6 witness: the theorem applies at the one-item document. -/
theorem C6_witness :
    (∃ s, exRecord.station = some s ∧ s ≠ "") ∧
      (recordDict exRecord).map Prod.fst = fieldnames :=
  C6_record_invariants exDoc exDT [exRecord] rfl exRecord (by simp)

/-- C3: a document with zero station items scrapes to the empty sequence
without an error, and the run then leaves the file system untouched: both
sinks are skipped. -/
theorem C3_empty_result_no_write (doc : HNode) (now : DateTime) (fs : FS)
    (h : HNode.selectItems doc = []) :
    scrape doc now = Except.ok [] ∧ runMain (some (200, doc)) now fs = (fs, none) := by
  have h1 : scrape doc now = Except.ok [] := by
    unfold scrape
    rw [h]
    rfl
  refine ⟨h1, ?_⟩
  simp only [runMain]
  rw [if_neg (by omega), h1]
  rfl

/-- C3 witness: the theorem applies at a document with no station item and
a file system holding prior outputs, which survive unchanged. -/
theorem C3_witness :
    scrape exEmptyDoc exDT = Except.ok [] ∧
      runMain (some (200, exEmptyDoc)) exDT (FS.mk (some [exRecord]) (some [fieldnames])) =
        (FS.mk (some [exRecord]) (some [fieldnames]), none) :=
  C3_empty_result_no_write exEmptyDoc exDT (FS.mk (some [exRecord]) (some [fieldnames])) rfl

/-- C2: a transport failure or a non-success HTTP status (any 4xx or 5xx,
in particular 500) aborts the run before any file write: the file system
is returned unchanged and the failure is reported. -/
theorem C2_fetch_failure_aborts (now : DateTime) (fs : FS) :
    runMain none now fs = (fs, some RunError.networkError) ∧
      ∀ st doc, 400 ≤ st → st < 600 →
        runMain (some (st, doc)) now fs = (fs, some (RunError.fetchError st)) := by
  refine ⟨rfl, ?_⟩
  intro st doc h1 h2
  simp only [runMain]
  rw [if_pos ⟨h1, h2⟩]

/-- C2 witness: the theorem applies with status 500 against a file system
holding prior outputs, which survive unchanged. -/
theorem C2_witness :
    runMain (some (500, exDoc)) exDT (FS.mk (some [exRecord]) (some [fieldnames])) =
      (FS.mk (some [exRecord]) (some [fieldnames]), some (RunError.fetchError 500)) :=
  (C2_fetch_failure_aborts exDT (FS.mk (some [exRecord]) (some [fieldnames]))).2
    500 exDoc (by omega) (by omega)

/-- C4: the five field extractions are independent; in particular an item
missing only the AQI heading still yields a record with station,
pollutant, status and detail_url all populated and only aqi absent. -/
theorem C4_independent_fields (ts : String) (li t p q : HNode)
    (hv : HNode.selectOneDesc valueBoxPred h5Pred li = none)
    (hl : HNode.selectOne linkPred li = some t)
    (hp : HNode.selectOneDesc valueBoxPred paraPred li = some p)
    (hq : HNode.selectOne statusPred li = some q) :
    ∃ r, extractItem ts li = Except.ok r ∧ r.aqi = none ∧
      r.station.isSome = true ∧ r.pollutant.isSome = true ∧
      r.status.isSome = true ∧ r.detail_url.isSome = true := by
  obtain ⟨s, hh, _⟩ := linkPred_href (selectOne_tgt hl)
  refine ⟨_, extractItem_link hl hh, ?_, rfl, ?_, ?_, rfl⟩
  · show (HNode.selectOneDesc valueBoxPred h5Pred li).map HNode.getTextStrip = none
    rw [hv]
    rfl
  · show ((HNode.selectOneDesc valueBoxPred paraPred li).map HNode.getTextStrip).isSome = true
    rw [hp]
    rfl
  · show ((HNode.selectOne statusPred li).map HNode.getTextStrip).isSome = true
    rw [hq]
    rfl

/-- C4 witness: the theorem applies at the concrete item missing only its
AQI heading. -/
theorem C4_witness :
    ∃ r, extractItem "T" exItemNoAqi = Except.ok r ∧ r.aqi = none ∧
      r.station.isSome = true ∧ r.pollutant.isSome = true ∧
      r.status.isSome = true ∧ r.detail_url.isSome = true :=
  C4_independent_fields "T" exItemNoAqi exLink
    (HNode.elem "p" [] [HNode.text "PM 2.5"])
    (HNode.elem "span" [("class", "text-uppercase")] [HNode.text "Baik"])
    rfl rfl rfl rfl

/-- C5: when a detail link is found, the station is the last non-empty
path segment of its reference, hyphens replaced by spaces and words
title-cased, and detail_url is that reference; with no link, both station
and detail_url are absent. -/
theorem C5_station_from_slug (ts : String) (li : HNode) :
    (∀ t, HNode.selectOne linkPred li = some t →
      ∃ u r, HNode.getAttr t "href" = some u ∧ extractItem ts li = Except.ok r ∧
        r.station = some (slug_to_name (String.mk (lastNonEmptySeg u.data))) ∧
        r.detail_url = some u) ∧
    (HNode.selectOne linkPred li = none →
      ∃ r, extractItem ts li = Except.ok r ∧ r.station = none ∧ r.detail_url = none) := by
  constructor
  · intro t hl
    obtain ⟨s, hh, _⟩ := linkPred_href (selectOne_tgt hl)
    refine ⟨s, _, hh, extractItem_link hl hh, ?_, rfl⟩
    show some (String.mk (slugToNameL ((splitOnChar '/' (pyRstrip '/' s.data)).getLastD []))) =
      some (slug_to_name (String.mk (lastNonEmptySeg s.data)))
    rw [show slug_to_name (String.mk (lastNonEmptySeg s.data)) =
      String.mk (slugToNameL (lastNonEmptySeg s.data)) from rfl]
    rw [show lastNonEmptySeg s.data =
      (splitOnChar '/' (pyRstrip '/' s.data)).getLastD [] from
      (lastSeg_eq_lastNonEmpty '/' s.data).symm]
  · intro hl
    exact ⟨_, extractItem_nolink hl, rfl, rfl⟩

/-- C5 witness: the theorem applies at the complete item for the link
branch and at the bare item for the no-link branch. -/
theorem C5_witness :
    (∃ u r, HNode.getAttr exLink "href" = some u ∧
      extractItem "T" exItem = Except.ok r ∧
      r.station = some (slug_to_name (String.mk (lastNonEmptySeg u.data))) ∧
      r.detail_url = some u) ∧
    (∃ r, extractItem "T" exBareItem = Except.ok r ∧
      r.station = none ∧ r.detail_url = none) :=
  ⟨(C5_station_from_slug "T" exItem).1 exLink rfl,
   (C5_station_from_slug "T" exBareItem).2 rfl⟩

/-- A valid detail link makes extraction succeed with a retained record. -/
theorem extract_valid {ts : String} {li : HNode} (h : hasValidLink li) :
    ∃ r, extractItem ts li = Except.ok r ∧ keepRecord r = true := by
  obtain ⟨t, s, hl, hh, hne⟩ := h
  refine ⟨_, extractItem_link hl hh, ?_⟩
  unfold keepRecord
  simp only []
  cases hl2 : slugToNameL ((splitOnChar '/' (pyRstrip '/' s.data)).getLastD []) with
  | nil => exact absurd hl2 hne
  | cons a as => rfl

/-- When every item extracts to a retained record, the scrape loop returns
them all, in document order. -/
theorem scrapeItems_all_valid {ts : String} {l : List HNode}
    (h : ∀ li ∈ l, ∃ r, extractItem ts li = Except.ok r ∧ keepRecord r = true) :
    ∃ rs, scrapeItems ts l = Except.ok rs ∧
      List.Forall₂ (fun li r => extractItem ts li = Except.ok r) l rs := by
  induction l with
  | nil => exact ⟨[], rfl, List.Forall₂.nil⟩
  | cons li rest ih =>
    obtain ⟨r, he, hk⟩ := h li (List.mem_cons_self li rest)
    obtain ⟨rs, hs2, hf⟩ := ih (fun x hx => h x (List.mem_cons_of_mem li hx))
    refine ⟨r :: rs, ?_, List.Forall₂.cons he hf⟩
    simp [scrapeItems, he, hs2, hk]

/-- C8: when every station item bears a valid detail link, scrape returns
exactly one record per item, in document order, and append_csv then adds
exactly that many rows to the CSV file. -/
theorem C8_one_record_per_item (doc : HNode) (now : DateTime) (fs : FS)
    (rows : List (List String))
    (h : ∀ li ∈ HNode.selectItems doc, hasValidLink li)
    (hcsv : fs.csv = some rows) :
    ∃ rs, scrape doc now = Except.ok rs ∧
      List.Forall₂ (fun li r => extractItem (fmtTimestamp now) li = Except.ok r)
        (HNode.selectItems doc) rs ∧
      rs.length = (HNode.selectItems doc).length ∧
      (append_csv rs fs).csv = some (rows ++ rs.map recordRow) ∧
      (rows ++ rs.map recordRow).length = rows.length + (HNode.selectItems doc).length := by
  obtain ⟨rs, hsc, hf⟩ := scrapeItems_all_valid (fun li hli => extract_valid (h li hli))
  have hlen : rs.length = (HNode.selectItems doc).length := hf.length_eq.symm
  refine ⟨rs, hsc, hf, hlen, ?_, ?_⟩
  · simp only [append_csv, hcsv]
  · simp [hlen]

/-- C8 witness: the theorem applies at the one-item document over a file
system whose CSV already has a header row. -/
theorem C8_witness :
    ∃ rs, scrape exDoc exDT = Except.ok rs ∧
      List.Forall₂ (fun li r => extractItem (fmtTimestamp exDT) li = Except.ok r)
        (HNode.selectItems exDoc) rs ∧
      rs.length = (HNode.selectItems exDoc).length ∧
      (append_csv rs (FS.mk none (some [fieldnames]))).csv =
        some ([fieldnames] ++ rs.map recordRow) ∧
      ([fieldnames] ++ rs.map recordRow).length =
        [fieldnames].length + (HNode.selectItems exDoc).length :=
  C8_one_record_per_item exDoc exDT (FS.mk none (some [fieldnames])) [fieldnames]
    (by
      intro li hli
      have : li = exItem := by
        have h2 : HNode.selectItems exDoc = [exItem] := rfl
        rw [h2] at hli
        simpa using hli
      rw [this]
      exact ⟨exLink, "https://x.id/ispu-detail/us-embassy-1/", rfl, rfl, by decide⟩)
    rfl
